import Mathlib

/-!
Verification of the requirement-parsing and update-decision core of the
`pyup` repository (`pyup/requirements.py`) against its specification.

Python strings are modelled as `List Char`.  Python's `pkg_resources` /
`packaging` collaborators (`parse_version`, `parse_requirements`,
`SpecifierSet`) are third-party libraries; they are modelled here on the
fragment the repository exercises: PEP-440 versions of the shape
`N(.N)*[{a|b|rc}N]` (anything else falls back to a legacy version, which
sorts below every PEP-440 version, mirroring `LegacyVersion`), and
requirement lines of the shape `name [op version {, op version}]` with an
optional ` #`-comment.  `sorted(..., key=parse_version, reverse=True)` is
modelled as a stable descending insertion sort, which agrees with Python's
stable sort on the key order.
-/

set_option maxRecDepth 10000

abbrev Str := List Char

def strLit (s : String) : Str := s.toList

/-- Python `str.strip()` whitespace set. -/
def isPySpace (c : Char) : Bool :=
  c == ' ' || c == '\t' || c == '\n' || c == '\r' || c == '\x0b' || c == '\x0c'

/-- Python `str.strip()`. -/
def strip (s : Str) : Str :=
  ((s.dropWhile isPySpace).reverse.dropWhile isPySpace).reverse

/-- Python's `needle in hay` substring test. -/
def strContains : Str → Str → Bool
  | [], needle => needle.isEmpty
  | c :: t, needle => needle.isPrefixOf (c :: t) || strContains t needle

/-- Python `str.splitlines()`: splits on `\n`, `\r` and `\r\n`, producing no
trailing empty line for a trailing line break. -/
def splitlines : Str → List Str
  | [] => []
  | '\r' :: '\n' :: rest => [] :: splitlines rest
  | '\n' :: rest => [] :: splitlines rest
  | '\r' :: rest => [] :: splitlines rest
  | c :: rest =>
    match splitlines rest with
    | [] => [[c]]
    | l :: ls => (c :: l) :: ls

/-- Python `str.split(sep)` for a multi-character separator, fuel-driven so
that the kernel can evaluate it; `pySplitM` always supplies enough fuel. -/
def splitFuel (sep : Str) : Nat → Str → Str → List Str
  | 0, s, acc => [acc.reverse ++ s]
  | _ + 1, [], acc => [acc.reverse]
  | fuel + 1, c :: rest, acc =>
    if sep.isPrefixOf (c :: rest) then
      acc.reverse :: splitFuel sep fuel ((c :: rest).drop sep.length) []
    else
      splitFuel sep fuel rest (c :: acc)

/-- Python `str.split(sep)` (non-empty separator). -/
def pySplitM (sep s : Str) : List Str :=
  if sep.isEmpty then [s] else splitFuel sep (s.length + 1) s []

/-- Python `str.replace(old, new)` (non-empty `old`): split and re-join. -/
def pyReplace (old new s : Str) : Str :=
  List.intercalate new (pySplitM old s)

def lowerStr (s : Str) : Str := s.map Char.toLower

def natOfDigits (s : Str) : Nat :=
  s.foldl (fun n c => n * 10 + (c.toNat - 48)) 0

/-! ## Version model (`pkg_resources.parse_version`, modelled) -/

/-- A parsed PEP-440 version of the modelled fragment: release segments plus
an optional pre-release `(phase, number)` with phases `a = 0`, `b = 1`,
`rc = 2`. -/
structure PyVer where
  release : List Nat
  pre : Option (Nat × Nat)
deriving DecidableEq, Repr

/-- `parse_version`'s result: a PEP-440 version, or a legacy fallback for
strings the PEP-440 grammar rejects (mirroring `LegacyVersion`). -/
inductive PV where
  | legacy (s : Str)
  | pep (v : PyVer)
deriving DecidableEq, Repr

/-- Pre-release tag of the modelled grammar: `a`, `b` or `rc`. -/
def parsePreTag : Str → Option (Nat × Str)
  | 'a' :: r => some (0, r)
  | 'b' :: r => some (1, r)
  | 'r' :: 'c' :: r => some (2, r)
  | _ => none

/-- Parse a final version segment `digits [tag digits]`. -/
def parseSeg (s : Str) : Option (Nat × Option (Nat × Nat)) :=
  let ds := s.takeWhile Char.isDigit
  let rest := s.dropWhile Char.isDigit
  if ds.isEmpty then none
  else
    match parsePreTag rest with
    | some (ph, r) =>
      if r.all Char.isDigit then some (natOfDigits ds, some (ph, natOfDigits r)) else none
    | none => if rest.isEmpty then some (natOfDigits ds, none) else none

/-- Parse a version string of the modelled PEP-440 fragment. -/
def parseVer (s0 : Str) : Option PyVer :=
  let s := strip s0
  if s.isEmpty then none
  else
    let segs := s.splitOn '.'
    let init := segs.dropLast
    match segs.getLast? with
    | none => none
    | some lastSeg =>
      if init.all (fun seg => !seg.isEmpty && seg.all Char.isDigit) then
        match parseSeg lastSeg with
        | some (n, pre) => some { release := (init.map natOfDigits) ++ [n], pre := pre }
        | none => none
      else none

/-- `pkg_resources.parse_version` (modelled): PEP-440 parse with legacy
fallback; it is total and never raises on a string input. -/
def parse_version (s : Str) : PV :=
  match parseVer s with
  | some v => PV.pep v
  | none => PV.legacy s

/-- Trailing zero release segments are insignificant for comparison
(`1.0 == 1.0.0`), as in `packaging`'s comparison key. -/
def trimZeros (l : List Nat) : List Nat :=
  (l.reverse.dropWhile (fun n => n == 0)).reverse

/-- Comparison key of a parsed version, encoded as a single lexicographically
ordered `List Nat`.  Legacy versions (tag `0`) sort below all PEP-440
versions (tag `1`); release digits are shifted by `+2` so that the pre-release
marker `0` sorts below any continued release and the final-release marker `1`
sorts below any longer release but above a pre-release, exactly the PEP-440
order of the modelled fragment. -/
def pvKey : PV → List Nat
  | PV.legacy s => 0 :: s.map Char.toNat
  | PV.pep v =>
    1 :: ((trimZeros v.release).map (fun n => n + 2) ++
      (match v.pre with
       | some (ph, n) => [0, ph, n]
       | none => [1]))

def pvLt (a b : PV) : Bool := decide (pvKey a < pvKey b)

def pvIsPrerelease : PV → Bool
  | PV.legacy _ => false
  | PV.pep v => v.pre.isSome

/-! ## Specifier model (`packaging.specifiers`, modelled) -/

inductive Op where
  | eq | ne | lt | le | gt | ge | compat
deriving DecidableEq, Repr

abbrev Spec := Op × Str

/-- Zero-pad a release list to length `n` (PEP-440 padding for comparison). -/
def padTo (l : List Nat) (n : Nat) : List Nat :=
  l ++ List.replicate (n - l.length) 0

/-- Release-prefix match used by the `~=` operator (modelled on the numeric
release segments). -/
def releasePrefixMatch (itemRel specRel : List Nat) : Bool :=
  (padTo itemRel specRel.length).take specRel.length == specRel

/-- `packaging.specifiers.Specifier.contains` for a single `(op, version)`
pair and an already-resolved pre-release flag. -/
def specContains (prereleases : Bool) (item : PV) : Spec → Bool
  | (op, verStr) =>
    if pvIsPrerelease item && !prereleases then false
    else
      let sv := parse_version verStr
      match op with
      | Op.eq => pvKey item == pvKey sv
      | Op.ne => !(pvKey item == pvKey sv)
      | Op.le => decide (pvKey item ≤ pvKey sv)
      | Op.ge => decide (pvKey sv ≤ pvKey item)
      | Op.lt =>
        decide (pvKey item < pvKey sv) &&
        !(match item, sv with
          | PV.pep iv, PV.pep sp =>
            !(pvIsPrerelease (PV.pep sp)) && pvIsPrerelease (PV.pep iv) &&
              (trimZeros iv.release == trimZeros sp.release)
          | _, _ => false)
      | Op.gt => decide (pvKey sv < pvKey item)
      | Op.compat =>
        match sv, item with
        | PV.pep sp, PV.pep iv =>
          decide (pvKey sv ≤ pvKey item) &&
            decide (2 ≤ sp.release.length) &&
            releasePrefixMatch iv.release sp.release.dropLast
        | _, _ => false

/-- Whether a single specifier opts in to pre-releases by default
(`packaging`: operators `==`, `>=`, `<=`, `~=` with a pre-release version). -/
def specDefaultPre : Spec → Bool
  | (op, v) =>
    (match op with
     | Op.eq | Op.ge | Op.le | Op.compat => true
     | _ => false) && pvIsPrerelease (parse_version v)

/-- `packaging.specifiers.SpecifierSet.contains(version, prereleases)`:
a tri-state pre-release flag (`none` resolves to the set's own default),
a global pre-release gate, then the conjunction of all specifiers. -/
def specSetContains (specs : List Spec) (prereleases : Option Bool) (v : Str) : Bool :=
  let item := parse_version v
  let pre := prereleases.getD (specs.any specDefaultPre)
  if pvIsPrerelease item && !pre then false
  else specs.all (specContains pre item)

/-! ## The Version Resolver (`Requirement.get_latest_version_within_specs`) -/

/-- Descending order on version strings by parsed precedence: `verGE a b`
says `a`'s parsed version is at least `b`'s. -/
def verGE (a b : Str) : Prop :=
  pvKey (parse_version b) ≤ pvKey (parse_version a)

instance : DecidableRel verGE := fun a b =>
  inferInstanceAs (Decidable (pvKey (parse_version b) ≤ pvKey (parse_version a)))

instance : IsTotal Str verGE :=
  ⟨fun a b => le_total (pvKey (parse_version b)) (pvKey (parse_version a))⟩

instance : IsTrans Str verGE :=
  ⟨fun _ _ _ h1 h2 => le_trans h2 h1⟩

/-- `Requirement.get_latest_version_within_specs(specs, versions, prereleases)`:
filter the candidates through the specifier set, sort by parsed version,
descending (a stable sort, like Python's `sorted(..., reverse=True)`), and
return the first, or `none` if no candidate qualifies. -/
def get_latest_version_within_specs (specs : List Spec) (versions : List Str)
    (prereleases : Option Bool) : Option Str :=
  ((versions.filter (specSetContains specs prereleases)).insertionSort verGE).head?

/-! ## Package Catalog boundary -/

/-- Modelled from the spec: `package.py` is not under `src/`.  Per section 6
a `Package` yields the known version strings, and
`Package.latest_version(allow_prereleases)` yields "the highest known version
for this package regardless of any constraint, subject only to the
pre-release flag", or none — in particular none when `versions` is empty. -/
structure Package where
  versions : List Str
deriving DecidableEq, Repr

/-- Modelled from the spec: the highest known version subject only to the
pre-release flag, computed with the Version Resolver over an empty spec set. -/
def Package.latest_version (p : Package) (prereleases : Bool) : Option Str :=
  get_latest_version_within_specs [] p.versions (some prereleases)

/-- Modelled from the spec: `fetch_package(name, index_server)` is the external
Package Catalog lookup; a catalog is a function that may fail (unknown
package → `none`). -/
abbrev Catalog := Str → Option Str → Option Package

/-! ## Requirement -/

structure Requirement where
  name : Str
  specs : List Spec
  hashCmp : Str × List Spec
  line : Str
  lineno : Nat
  index_server : Option Str
deriving DecidableEq, Repr

/-- Canonical key for ordering `(op, version)` pairs when canonicalising a
spec list. -/
def specKey : Spec → List Nat
  | (op, v) =>
    (match op with
     | Op.eq => 0 | Op.ne => 1 | Op.lt => 2 | Op.le => 3
     | Op.gt => 4 | Op.ge => 5 | Op.compat => 6) :: v.map Char.toNat

def specLe (a b : Spec) : Prop := specKey a ≤ specKey b

instance : DecidableRel specLe := fun a b =>
  inferInstanceAs (Decidable (specKey a ≤ specKey b))

instance : IsTotal Spec specLe := ⟨fun a b => le_total (specKey a) (specKey b)⟩

instance : IsTrans Spec specLe := ⟨fun _ _ _ h1 h2 => le_trans h1 h2⟩

/-- The canonical set-representation of a spec list, modelling the frozenset
of specifiers inside `pkg_resources.Requirement.hashCmp`: duplicates removed,
then sorted into a canonical order.  Two spec lists with the same underlying
set of `(op, version)` pairs yield the same canonical form. -/
def canonSpecs (specs : List Spec) : List Spec :=
  specs.dedup.insertionSort specLe

/-- Characters allowed in a project name (modelled `packaging` grammar). -/
def isNameChar (c : Char) : Bool :=
  c.isAlphanum || c == '.' || c == '-' || c == '_'

/-- Characters allowed in a version inside a specifier. -/
def isVerChar (c : Char) : Bool :=
  c.isAlphanum || c == '.' || c == '-' || c == '_' || c == '*' || c == '+' || c == '!'

/-- Leading comparison operator of a specifier. -/
def parseOpTok (s : Str) : Option (Op × Str) :=
  if (strLit "==").isPrefixOf s then some (Op.eq, s.drop 2)
  else if (strLit "!=").isPrefixOf s then some (Op.ne, s.drop 2)
  else if (strLit "<=").isPrefixOf s then some (Op.le, s.drop 2)
  else if (strLit ">=").isPrefixOf s then some (Op.ge, s.drop 2)
  else if (strLit "~=").isPrefixOf s then some (Op.compat, s.drop 2)
  else if (strLit "<").isPrefixOf s then some (Op.lt, s.drop 1)
  else if (strLit ">").isPrefixOf s then some (Op.gt, s.drop 1)
  else none

def parseOneSpec (s : Str) : Option Spec :=
  match parseOpTok (strip s) with
  | none => none
  | some (op, rest) =>
    let v := strip rest
    if !v.isEmpty && v.all isVerChar then some (op, v) else none

def parseSpecList (s : Str) : Option (List Spec) :=
  (s.splitOn ',').mapM parseOneSpec

/-- Modelled `pkg_resources.parse_requirements` on a single line: drop the
text from the first ` #` on, strip, reject blank and `#`-comment lines
(zero requirements → `ValueError`), then parse `name [specifier-list]`
with the modelled `packaging` grammar (extras/markers/URLs are outside the
modelled fragment and fail to parse). -/
def parseReqLine (s : Str) : Option (Str × List Spec) :=
  let line := if strContains s (strLit " #") then (pySplitM (strLit " #") s).headD [] else s
  let line := strip line
  if line.isEmpty || (strLit "#").isPrefixOf line then none
  else
    let nm := line.takeWhile isNameChar
    let rest := line.dropWhile isNameChar
    if nm.isEmpty then none
    else if !(nm.headD ' ').isAlphanum then none
    else
      let rest := strip rest
      if rest.isEmpty then some (nm, [])
      else
        match parseSpecList rest with
        | some specs => some (nm, specs)
        | none => none

/-- `Requirement.parse(s, lineno, index_server)`: fix a missing space before a
tab-comment, parse the line, and build the entity; the stored `line` is the
original `s`.  `none` models the uncaught `ValueError` of the Python code. -/
def Requirement.parse (s : Str) (lineno : Nat) (index_server : Option Str) :
    Option Requirement :=
  match parseReqLine
      (if strContains s (strLit "\t#") then pyReplace (strLit "\t#") (strLit "\t #") s else s) with
  | none => none
  | some (nm, specs) =>
    some { name := nm, specs := specs,
           hashCmp := (lowerStr nm, canonSpecs specs),
           line := s, lineno := lineno, index_server := index_server }

/-- `Requirement.__eq__`: equality is comparison of the `hashCmp` values. -/
def Requirement.eqReq (a b : Requirement) : Bool := a.hashCmp == b.hashCmp

def Requirement.is_pinned (r : Requirement) : Bool :=
  match r.specs with
  | [(Op.eq, _)] => true
  | _ => false

def Requirement.is_ranged (r : Requirement) : Bool :=
  decide (1 ≤ r.specs.length) && !r.is_pinned

def Requirement.is_loose (r : Requirement) : Bool := r.specs.isEmpty

/-- `Requirement.prereleases`: pinned and the pinned version is itself a
pre-release. -/
def Requirement.prereleases (r : Requirement) : Bool :=
  match r.specs with
  | [(Op.eq, v)] => pvIsPrerelease (parse_version v)
  | _ => false

/-- The raw filter token of a source line: the first whitespace-delimited
token after a `rq.filter:` (legacy) or `pyup:` (current) marker, taken from
the text between the first and second marker occurrence (`split(marker)[1]`),
stripped. -/
def filterTok (line : Str) : Option Str :=
  if strContains line (strLit "rq.filter:") then
    some (((strip ((pySplitM (strLit "rq.filter:") line).getD 1 [])).splitOn ' ').headD [])
  else if strContains line (strLit "pyup:") then
    some (((strip ((pySplitM (strLit "pyup:") line).getD 1 [])).splitOn ' ').headD [])
  else none

/-- Parse a raw filter token into filter specs: an empty or absent token is
no filter, and the token is otherwise parsed as the specifier list of a
dummy `filter` requirement — present only if the specs are non-empty;
malformed text is treated as absent. -/
def filterOfTok : Option Str → Option (List Spec)
  | none => none
  | some tok =>
    if tok.isEmpty then none
    else
      match parseReqLine (strLit "filter " ++ tok) with
      | some (_, specs) => if specs.isEmpty then none else some specs
      | none => none

/-- `Requirement.filter`: inline override of the upgrade scope, parsed from
the source line. -/
def Requirement.filter (r : Requirement) : Option (List Spec) :=
  filterOfTok (filterTok r.line)

/-- `Requirement.version`: the pinned literal, else the resolver over the
requirement's specs (plus filter specs when present).  The `Package` stands
for the catalog entry reached through the `package` property. -/
def Requirement.version (r : Requirement) (pkg : Package) : Option Str :=
  if r.is_pinned then
    match r.specs with
    | (_, v) :: _ => some v
    | [] => none
  else
    let specs := r.specs ++ (r.filter.getD [])
    get_latest_version_within_specs specs pkg.versions (some r.prereleases)

def Requirement.latest_version (r : Requirement) (pkg : Package) : Option Str :=
  pkg.latest_version r.prereleases

/-- `Requirement.latest_version_within_specs`: resolver over the filter specs
when a filter is present, otherwise `latest_version`. -/
def Requirement.latest_version_within_specs (r : Requirement) (pkg : Package) :
    Option Str :=
  match r.filter with
  | some fs => get_latest_version_within_specs fs pkg.versions (some r.prereleases)
  | none => r.latest_version pkg

/-- `Requirement.is_outdated`: compares `parse_version(version)` with
`parse_version(latest_version_within_specs)`.  In the Python source
`parse_version` applied to `None` raises a `TypeError` (the `Version`
constructor's regex search rejects non-strings before `InvalidVersion` can be
caught), so the result is modelled as `Option Bool` with `none` standing for
that uncaught exception. -/
def Requirement.is_outdated (r : Requirement) (pkg : Package) : Option Bool :=
  match r.version pkg, r.latest_version_within_specs pkg with
  | some v, some l => some (pvLt (parse_version v) (parse_version l))
  | _, _ => none

/-- `Requirement.needs_update`: `is_outdated` when pinned or ranged, else
true; `none` again models the propagated `TypeError`. -/
def Requirement.needs_update (r : Requirement) (pkg : Package) : Option Bool :=
  if r.is_pinned || r.is_ranged then r.is_outdated pkg else some true

/-- Python's string formatting of an optional value: `None` prints as
`"None"`. -/
def optVerStr : Option Str → Str
  | some s => s
  | none => strLit "None"

/-- The synthesized replacement line of `Requirement.update_content`:
`<name>==<latest_version_within_specs>`, with the text after the first `#`
of the original line reattached after a single space and a `#`. -/
def Requirement.new_line (r : Requirement) (pkg : Package) : Str :=
  let base := r.name ++ strLit "==" ++ optVerStr (r.latest_version_within_specs pkg)
  if r.line.contains '#' then
    base ++ strLit " #" ++ List.intercalate (strLit "#") (r.line.splitOn '#').tail
  else base

/-- The effect of `re.sub(r"^<escaped line>(?=\r?\n?$)", new_line, content,
flags=re.MULTILINE)` on one physical `\n`-segment of the content: the match
must start at a line start and be followed by an optional `\r` and the line
end, so a segment is rewritten exactly when it equals the line, or the line
followed by a carriage return (which the lookahead leaves in place).  This
is faithful for lines that contain no `\n` or `\r`, which holds for every
line produced by `splitlines`. -/
def Requirement.updLine (r : Requirement) (pkg : Package) (p : Str) : Str :=
  if p = r.line then r.new_line pkg
  else if p = r.line ++ ['\r'] then r.new_line pkg ++ ['\r']
  else p

/-- `Requirement.update_content(content)`: anchored full-line substitution of
the original line by the synthesized line, over all `\n`-separated segments. -/
def Requirement.update_content (r : Requirement) (pkg : Package) (content : Str) : Str :=
  List.intercalate ['\n'] ((content.splitOn '\n').map (r.updLine pkg))

/-! ## RequirementFile -/

/-- `RequirementFile.parse_index_server`: strip any `#`-comment, take the
second space-delimited token, normalise to a trailing slash; `none` models
the caught `IndexError` when there is no second token. -/
def parse_index_server (line : Str) : Option Str :=
  let l := (line.splitOn '#').headD []
  match (l.splitOn ' ').get? 1 with
  | none => none
  | some u =>
    let url := strip u
    some (if (strLit "/").isSuffixOf url then url else url ++ strLit "/")

/-- `RequirementFile.resolve_file`: strip the `-r `/`--requirement ` flag and
any trailing comment, and resolve relative to the directory of `file_path`. -/
def resolve_file (file_path : Str) (line : Str) : Str :=
  let line := pyReplace (strLit "--requirement ") [] (pyReplace (strLit "-r ") [] line)
  let parts := file_path.splitOn '/'
  let line := if strContains line (strLit " #") then strip ((line.splitOn '#').headD []) else line
  if parts.length == 1 then line
  else List.intercalate (strLit "/") parts.dropLast ++ strLit "/" ++ line

def isIndexLine (line : Str) : Bool :=
  (strLit "-i").isPrefixOf line || (strLit "--index-url").isPrefixOf line ||
    (strLit "--extra-index-url").isPrefixOf line

def isReqFileLine (line : Str) : Bool :=
  (strLit "-r").isPrefixOf line || (strLit "--requirement").isPrefixOf line

def isNoopLine (line : Str) : Bool :=
  (strLit "-f").isPrefixOf line || (strLit "--find-links").isPrefixOf line ||
    (strLit "--no-index").isPrefixOf line || (strLit "--allow-external").isPrefixOf line ||
    (strLit "--allow-unverified").isPrefixOf line || (strLit "-Z").isPrefixOf line ||
    (strLit "--always-unzip").isPrefixOf line

/-- The body of `RequirementFile._parse`, one step per physical line, carrying
the 0-based line index and the current index server.  The result is the
accumulated requirements, the accumulated other files, and whether the
`pyup: ignore file` early return fired (which keeps what was accumulated
before the marker line and stops). -/
def parseAux (cat : Catalog) (path : Str) :
    List Str → Nat → Option Str → List Requirement × List Str × Bool
  | [], _, _ => ([], [], false)
  | l :: rest, num, idx =>
    let line := strip l
    if line.isEmpty then parseAux cat path rest (num + 1) idx
    else if strContains line (strLit "pyup: ignore file") && (num == 0 || num == 1) then
      ([], [], true)
    else if (strLit "#").isPrefixOf line then parseAux cat path rest (num + 1) idx
    else if isIndexLine line then parseAux cat path rest (num + 1) (parse_index_server line)
    else if isReqFileLine line then
      ((parseAux cat path rest (num + 1) idx).1,
       resolve_file path line :: (parseAux cat path rest (num + 1) idx).2.1,
       (parseAux cat path rest (num + 1) idx).2.2)
    else if isNoopLine line then parseAux cat path rest (num + 1) idx
    else if strContains line (strLit "pyup: ignore") then parseAux cat path rest (num + 1) idx
    else
      match Requirement.parse line (num + 1) idx with
      | some req =>
        if (cat req.name idx).isSome then
          (req :: (parseAux cat path rest (num + 1) idx).1,
           (parseAux cat path rest (num + 1) idx).2.1,
           (parseAux cat path rest (num + 1) idx).2.2)
        else parseAux cat path rest (num + 1) idx
      | none => parseAux cat path rest (num + 1) idx

structure ParseOut where
  requirements : List Requirement
  other_files : List Str
  is_valid : Bool
deriving DecidableEq, Repr

/-- A full `_parse` run over the file content: afterwards the three derived
fields are all set; validity is false on an ignore-file early return, else
it records whether anything was produced. -/
def runParse (cat : Catalog) (path content : Str) : ParseOut :=
  let out := parseAux cat path (splitlines content) 0 none
  { requirements := out.1, other_files := out.2.1,
    is_valid := if out.2.2 then false else !out.1.isEmpty || !out.2.1.isEmpty }

/-- The mutable cache slots of a `RequirementFile` (`_requirements`,
`_other_files`, `_is_valid`), all `None` at construction. -/
structure RFState where
  reqsCache : Option (List Requirement)
  filesCache : Option (List Str)
  validCache : Option Bool
deriving DecidableEq, Repr

def initState : RFState := ⟨none, none, none⟩

/-- The cache state after `_parse` has run. -/
def parsedState (cat : Catalog) (path content : Str) : RFState :=
  let out := runParse cat path content
  ⟨some out.requirements, some out.other_files, some out.is_valid⟩

/-- The `is_valid` property: parses when `_is_valid is None`; returns the
value, the new state, and whether `_parse` ran. -/
def accessValid (cat : Catalog) (path content : Str) (st : RFState) :
    Bool × RFState × Bool :=
  match st.validCache with
  | some b => (b, st, false)
  | none =>
    let st2 := parsedState cat path content
    (st2.validCache.getD false, st2, true)

/-- The `requirements` property: parses when `not self._requirements`, i.e.
when the cache is unset or holds an empty list. -/
def accessReqs (cat : Catalog) (path content : Str) (st : RFState) :
    List Requirement × RFState × Bool :=
  match st.reqsCache with
  | some (r :: rs) => (r :: rs, st, false)
  | _ =>
    let st2 := parsedState cat path content
    (st2.reqsCache.getD [], st2, true)

/-- The `other_files` property: parses when `not self._other_files`. -/
def accessFiles (cat : Catalog) (path content : Str) (st : RFState) :
    List Str × RFState × Bool :=
  match st.filesCache with
  | some (f :: fs) => (f :: fs, st, false)
  | _ =>
    let st2 := parsedState cat path content
    (st2.filesCache.getD [], st2, true)

/-! ## Helper lemmas -/

theorem strContains_nil_false {needle : Str} (h : needle ≠ []) :
    strContains [] needle = false := by
  unfold strContains
  exact List.isEmpty_eq_false.mpr h

theorem ne_nil_of_strContains {s needle : Str} (hne : needle ≠ [])
    (h : strContains s needle = true) : s ≠ [] := by
  intro hs
  subst hs
  rw [strContains_nil_false hne] at h
  exact absurd h (by simp)

/-- Fields fixed by a successful `Requirement.parse`. -/
theorem Requirement.parse_some_elim {s : Str} {n : Nat} {i : Option Str} {r : Requirement}
    (h : Requirement.parse s n i = some r) :
    r.line = s ∧ r.lineno = n ∧ r.index_server = i ∧
      r.hashCmp = (lowerStr r.name, canonSpecs r.specs) := by
  unfold Requirement.parse at h
  split at h
  · exact absurd h (by simp)
  · next nm specs _ =>
    injection h with h2
    subst h2
    exact ⟨rfl, rfl, rfl, rfl⟩

/-! ## Concrete instances used by the claim theorems -/

/-- A catalog that knows every package (and lists no versions; parsing only
asks whether the package exists). -/
def catAll : Catalog := fun _ _ => some ⟨[]⟩

/-- Fallback requirement used to destructure successful parses. -/
def junkReq : Requirement := ⟨[], [], ([], []), [], 0, none⟩

def c2pinned : Requirement :=
  (Requirement.parse (strLit "django==1.0.0") 1 none).getD junkReq

def c2ranged : Requirement :=
  (Requirement.parse (strLit "django>=1.0") 1 none).getD junkReq

def c3line : Str := strLit "package==1.0.0  # comment"

def c3req : Requirement := (Requirement.parse c3line 1 none).getD junkReq

def c3pkg : Package := ⟨[strLit "1.0.0", strLit "1.2.0"]⟩

def c5req : Requirement :=
  (Requirement.parse (strLit "package>=1.0,<2.0  # pyup: <1.5") 1 none).getD junkReq

def c5pkg : Package := ⟨[strLit "1.0", strLit "1.4", strLit "1.8"]⟩

/-! ## Claim theorems -/

/-- Claim C1: for every specs list and collection of version strings,
`get_latest_version_within_specs(specs, versions, prereleases)` returns a
version only if it is a candidate satisfying the whole specifier set (with
the given pre-release flag), and then one of maximum parsed version
precedence among the satisfying candidates; it returns `none` exactly when
no candidate satisfies the set. -/
theorem C1_resolver_sound_and_complete (specs : List Spec) (versions : List Str)
    (prereleases : Option Bool) :
    (∀ v, get_latest_version_within_specs specs versions prereleases = some v →
        v ∈ versions ∧ specSetContains specs prereleases v = true ∧
        ∀ w ∈ versions, specSetContains specs prereleases w = true →
          pvKey (parse_version w) ≤ pvKey (parse_version v)) ∧
    (get_latest_version_within_specs specs versions prereleases = none ↔
        ∀ w ∈ versions, specSetContains specs prereleases w = false) := by
  have hperm :=
    List.perm_insertionSort verGE (versions.filter (specSetContains specs prereleases))
  have hsorted :=
    List.sorted_insertionSort verGE (versions.filter (specSetContains specs prereleases))
  constructor
  · intro v hv
    unfold get_latest_version_within_specs at hv
    obtain ⟨t, ht⟩ : ∃ t,
        (versions.filter (specSetContains specs prereleases)).insertionSort verGE = v :: t := by
      cases hh : (versions.filter (specSetContains specs prereleases)).insertionSort verGE with
      | nil => rw [hh] at hv; exact absurd hv (by simp)
      | cons a t =>
        rw [hh] at hv
        simp only [List.head?] at hv
        injection hv with h1
        subst h1
        exact ⟨t, rfl⟩
    have hvmem : v ∈ versions.filter (specSetContains specs prereleases) := by
      have : v ∈ (versions.filter (specSetContains specs prereleases)).insertionSort verGE := by
        rw [ht]; exact List.mem_cons_self _ _
      exact hperm.mem_iff.mp this
    have hvv := List.mem_filter.mp hvmem
    refine ⟨hvv.1, hvv.2, ?_⟩
    intro w hw hpw
    have hwf : w ∈ versions.filter (specSetContains specs prereleases) :=
      List.mem_filter.mpr ⟨hw, hpw⟩
    have hws := hperm.mem_iff.mpr hwf
    rw [ht] at hws hsorted
    rcases List.mem_cons.mp hws with h | h
    · subst h; exact le_refl _
    · exact List.rel_of_sorted_cons hsorted w h
  · unfold get_latest_version_within_specs
    rw [List.head?_eq_none_iff]
    constructor
    · intro h w hw
      rw [h] at hperm
      have hnil := hperm.symm.eq_nil
      have := List.filter_eq_nil_iff.mp hnil w hw
      simpa using this
    · intro h
      have hnil : versions.filter (specSetContains specs prereleases) = [] :=
        List.filter_eq_nil_iff.mpr (fun w hw => by simp [h w hw])
      rw [hnil]
      rfl

/-- Witness for C1 at a concrete input: among `1.0`, `2.0`, `1.4` under the
spec `< 1.5`, the resolver's answer `1.4` is a satisfying candidate of
maximum precedence. -/
theorem C1_witness :
    strLit "1.4" ∈ [strLit "1.0", strLit "2.0", strLit "1.4"] ∧
    specSetContains [(Op.lt, strLit "1.5")] (some false) (strLit "1.4") = true ∧
    ∀ w ∈ [strLit "1.0", strLit "2.0", strLit "1.4"],
      specSetContains [(Op.lt, strLit "1.5")] (some false) w = true →
        pvKey (parse_version w) ≤ pvKey (parse_version (strLit "1.4")) :=
  (C1_resolver_sound_and_complete [(Op.lt, strLit "1.5")]
    [strLit "1.0", strLit "2.0", strLit "1.4"] (some false)).1 (strLit "1.4") (by decide)

/-- Claim C2 (code bug exhibit): for a pinned (`django==1.0.0`) and a ranged
(`django>=1.0`) requirement whose package has an empty version list,
`version`/`latest_version_within_specs` resolve to none and `is_outdated` /
`needs_update` evaluate to `none`, the model of the uncaught `TypeError`
raised by `parse_version(None)` — instead of the spec-mandated "do not claim
outdated, do not raise". -/
theorem C2_empty_versions_accessors_raise :
    Requirement.parse (strLit "django==1.0.0") 1 none = some c2pinned ∧
    Requirement.parse (strLit "django>=1.0") 1 none = some c2ranged ∧
    c2pinned.is_pinned = true ∧ c2ranged.is_ranged = true ∧
    c2pinned.latest_version_within_specs ⟨[]⟩ = none ∧
    c2ranged.version ⟨[]⟩ = none ∧
    c2pinned.is_outdated ⟨[]⟩ = none ∧ c2pinned.needs_update ⟨[]⟩ = none ∧
    c2ranged.is_outdated ⟨[]⟩ = none ∧ c2ranged.needs_update ⟨[]⟩ = none := by
  decide

/-- Claim C3, counterexample: for `package==1.0.0  # comment` resolving to
`1.2.0`, the rewritten line is `package==1.2.0 # comment` — the run of
whitespace before the comment collapses to a single space — and not
`package==1.2.0  # comment` as the claim states. -/
theorem C3_counterexample :
    Requirement.parse c3line 1 none = some c3req ∧
    c3req.latest_version_within_specs c3pkg = some (strLit "1.2.0") ∧
    c3req.update_content c3pkg c3line = strLit "package==1.2.0 # comment" ∧
    strLit "package==1.2.0 # comment" ≠ strLit "package==1.2.0  # comment" := by
  decide

/-- Claim C3 as amended: the rewritten physical line reads
`package==1.2.0 # comment` (the text after the first `#` reattached
unchanged after a single space and `#`), and every other line of the file is
byte-identical to the original. -/
theorem C3_amended_update :
    c3req.update_content c3pkg
        (strLit "alpha==0.1\npackage==1.0.0  # comment\nbeta==0.2") =
      strLit "alpha==0.1\npackage==1.2.0 # comment\nbeta==0.2" := by
  decide

/-- A present filter always carries non-empty specs. -/
theorem Requirement.filter_ne_nil {r : Requirement} {fs : List Spec}
    (h : r.filter = some fs) : fs ≠ [] := by
  unfold Requirement.filter at h
  rcases htok : filterTok r.line with _ | tok
  · rw [htok] at h
    exact absurd h (by simp [filterOfTok])
  · rw [htok] at h
    simp only [filterOfTok] at h
    split at h
    · exact absurd h (by simp)
    · split at h
      · split at h
        · exact absurd h (by simp)
        · next hne2 =>
          injection h with h2
          subst h2
          simpa using hne2
      · exact absurd h (by simp)

/-- Claim C5: when the source line carries an inline filter with non-empty
parsed specs, `latest_version_within_specs` is the Version Resolver applied
to the filter specs alone; when no filter is present it equals
`latest_version`. -/
theorem C5_filter_governs_ceiling (r : Requirement) (pkg : Package) :
    (∀ fs, r.filter = some fs →
        fs ≠ [] ∧
        r.latest_version_within_specs pkg =
          get_latest_version_within_specs fs pkg.versions (some r.prereleases)) ∧
    (r.filter = none →
        r.latest_version_within_specs pkg = r.latest_version pkg) := by
  constructor
  · intro fs hfs
    exact ⟨Requirement.filter_ne_nil hfs,
      by unfold Requirement.latest_version_within_specs; rw [hfs]⟩
  · intro hf
    unfold Requirement.latest_version_within_specs
    rw [hf]

/-- Witness for C5 at the spec's example: for
`package>=1.0,<2.0  # pyup: <1.5` over versions `1.0`, `1.4`, `1.8`, the
upgrade ceiling is governed by the filter `<1.5` (result `1.4`), not the
constraint ceiling `<2.0` (which alone would allow `1.8`). -/
theorem C5_witness :
    c5req.latest_version_within_specs c5pkg =
      get_latest_version_within_specs [(Op.lt, strLit "1.5")] c5pkg.versions
        (some c5req.prereleases) ∧
    c5req.latest_version_within_specs c5pkg = some (strLit "1.4") ∧
    get_latest_version_within_specs c5req.specs c5pkg.versions
        (some c5req.prereleases) = some (strLit "1.8") := by
  refine ⟨((C5_filter_governs_ceiling c5req c5pkg).1 [(Op.lt, strLit "1.5")] (by decide)).2,
    ?_, ?_⟩
  · decide
  · decide

/-- Claim C9: if the requirement's original line does not occur verbatim as a
full physical line of the content (neither as a `\n`-delimited segment nor as
one with a trailing carriage return), `update_content` returns the content
completely unchanged. -/
theorem C9_update_content_noop (r : Requirement) (pkg : Package) (content : Str)
    (h : ∀ p ∈ content.splitOn '\n', p ≠ r.line ∧ p ≠ r.line ++ ['\r']) :
    r.update_content pkg content = content := by
  unfold Requirement.update_content
  have hmap : (content.splitOn '\n').map (r.updLine pkg) = content.splitOn '\n' := by
    conv_rhs => rw [← List.map_id (content.splitOn '\n')]
    apply List.map_congr_left
    intro p hp
    unfold Requirement.updLine
    rw [if_neg (h p hp).1, if_neg (h p hp).2]
    rfl
  rw [hmap]
  exact List.intercalate_splitOn content '\n'

/-- Witness for C9: a stale content without the requirement's line is
returned untouched. -/
theorem C9_witness :
    c2pinned.update_content c3pkg (strLit "package==1.0.0\nother==2.0") =
      strLit "package==1.0.0\nother==2.0" :=
  C9_update_content_noop c2pinned c3pkg (strLit "package==1.0.0\nother==2.0") (by decide)

/-- Counting a mapped value is at least counting its preimage value. -/
theorem count_map_ge (f : Str → Str) (a : Str) :
    ∀ ps : List Str, ps.count a ≤ (ps.map f).count (f a) := by
  intro ps
  induction ps with
  | nil => simp
  | cons p t ih =>
    by_cases hp : p = a
    · subst hp
      simp only [List.map_cons, List.count_cons, beq_self_eq_true, if_true]
      omega
    · simp only [List.map_cons, List.count_cons]
      have : (if (p == a) = true then 1 else 0) ≤ if (f p == f a) = true then 1 else 0 := by
        rw [if_neg (by simpa using hp)]
        omega
      omega

/-- Claim C10: when the original line occurs as a full physical line more
than once, `update_content` rewrites every such segment (at least as many
replacement lines appear as there were occurrences), not only the one at the
requirement's own `lineno`; segments that contain the line only as a proper
substring are left unchanged. -/
theorem C10_update_content_all_occurrences (r : Requirement) (pkg : Package)
    (ps : List Str)
    (hps : ∀ p ∈ ps, '\n' ∉ p)
    (htwo : 2 ≤ ps.count r.line) :
    r.update_content pkg (List.intercalate ['\n'] ps) =
      List.intercalate ['\n'] (ps.map (r.updLine pkg)) ∧
    2 ≤ (ps.map (r.updLine pkg)).count (r.new_line pkg) ∧
    ∀ p ∈ ps, p ≠ r.line → p ≠ r.line ++ ['\r'] → r.updLine pkg p = p := by
  have hne : ps ≠ [] := by
    intro hnil
    rw [hnil] at htwo
    simp at htwo
  refine ⟨?_, ?_, ?_⟩
  · unfold Requirement.update_content
    rw [List.splitOn_intercalate ps '\n' hps hne]
  · have h1 := count_map_ge (r.updLine pkg) r.line ps
    have h2 : r.updLine pkg r.line = r.new_line pkg := by
      unfold Requirement.updLine
      rw [if_pos rfl]
    rw [h2] at h1
    omega
  · intro p _ hp1 hp2
    unfold Requirement.updLine
    rw [if_neg hp1, if_neg hp2]

/-- Witness for C10: both occurrences of `django==1.0.0` are rewritten, and
the middle line, which contains the requirement line only as a proper
substring, stays unchanged. -/
theorem C10_witness :
    c2pinned.update_content c3pkg
        (List.intercalate ['\n']
          [strLit "django==1.0.0", strLit "django==1.0.0 --extra", strLit "django==1.0.0"]) =
      List.intercalate ['\n']
        ([strLit "django==1.0.0", strLit "django==1.0.0 --extra",
          strLit "django==1.0.0"].map (c2pinned.updLine c3pkg)) ∧
    c2pinned.update_content c3pkg
        (strLit "django==1.0.0\ndjango==1.0.0 --extra\ndjango==1.0.0") =
      strLit "django==1.2.0\ndjango==1.0.0 --extra\ndjango==1.2.0" := by
  refine ⟨(C10_update_content_all_occurrences c2pinned c3pkg
    [strLit "django==1.0.0", strLit "django==1.0.0 --extra", strLit "django==1.0.0"]
    (by decide) (by decide)).1, by decide⟩

/-- Claim C6, counterexample: for the content `# only a comment`, the first
access (`is_valid`) completes a parse, yet the next access (`requirements`)
runs `_parse` again, because the guard `if not self._requirements` treats the
cached empty list like an unset cache. -/
theorem C6_counterexample :
    (accessReqs catAll (strLit "r.txt") (strLit "# only a comment")
        ((accessValid catAll (strLit "r.txt") (strLit "# only a comment") initState).2.1)).2.2
      = true := by
  decide

/-- Claim C6 as amended: the three derived fields are computed together by
one parse pass, and the first access through any accessor fills all three
caches; `is_valid` never re-parses after that; `requirements` and
`other_files` re-parse exactly when their cached list is empty (their guard
tests falsiness, not unset-ness) — but any such re-parse recomputes the
identical state, so every access returns the values of the single parse
pass. -/
theorem C6_amended_caching (cat : Catalog) (path content : Str) :
    (accessValid cat path content initState).2.1 = parsedState cat path content ∧
    (accessReqs cat path content initState).2.1 = parsedState cat path content ∧
    (accessFiles cat path content initState).2.1 = parsedState cat path content ∧
    (accessValid cat path content (parsedState cat path content)).2.2 = false ∧
    (accessValid cat path content (parsedState cat path content)).2.1 =
      parsedState cat path content ∧
    (accessValid cat path content (parsedState cat path content)).1 =
      (runParse cat path content).is_valid ∧
    (accessReqs cat path content (parsedState cat path content)).2.1 =
      parsedState cat path content ∧
    (accessReqs cat path content (parsedState cat path content)).1 =
      (runParse cat path content).requirements ∧
    ((accessReqs cat path content (parsedState cat path content)).2.2 = true ↔
      (runParse cat path content).requirements = []) ∧
    (accessFiles cat path content (parsedState cat path content)).2.1 =
      parsedState cat path content ∧
    (accessFiles cat path content (parsedState cat path content)).1 =
      (runParse cat path content).other_files ∧
    ((accessFiles cat path content (parsedState cat path content)).2.2 = true ↔
      (runParse cat path content).other_files = []) := by
  refine ⟨rfl, rfl, rfl, rfl, rfl, rfl, ?_, ?_, ?_, ?_, ?_, ?_⟩
  · cases hr : (runParse cat path content).requirements <;>
      simp [accessReqs, parsedState, hr]
  · cases hr : (runParse cat path content).requirements <;>
      simp [accessReqs, parsedState, hr]
  · cases hr : (runParse cat path content).requirements <;>
      simp [accessReqs, parsedState, hr]
  · cases hf : (runParse cat path content).other_files <;>
      simp [accessFiles, parsedState, hf]
  · cases hf : (runParse cat path content).other_files <;>
      simp [accessFiles, parsedState, hf]
  · cases hf : (runParse cat path content).other_files <;>
      simp [accessFiles, parsedState, hf]

/-- Membership is invariant under spec-list canonicalisation. -/
theorem mem_canonSpecs {sp : Spec} {l : List Spec} : sp ∈ canonSpecs l ↔ sp ∈ l := by
  unfold canonSpecs
  rw [List.mem_insertionSort]
  exact List.mem_dedup

/-- Claim C8: two Requirements are equal exactly when their `hashCmp` values
are equal; two instances parsed from identical line text (any line numbers,
any index servers) compare equal; instances parsed from lines whose
constraint-spec sets differ never compare equal; and the equality is
reflexive, symmetric and transitive. -/
theorem C8_equality_by_hashCmp :
    (∀ a b : Requirement, a.eqReq b = true ↔ a.hashCmp = b.hashCmp) ∧
    (∀ s n₁ i₁ n₂ i₂ r₁ r₂, Requirement.parse s n₁ i₁ = some r₁ →
        Requirement.parse s n₂ i₂ = some r₂ → r₁.eqReq r₂ = true) ∧
    (∀ s₁ n₁ i₁ s₂ n₂ i₂ r₁ r₂, Requirement.parse s₁ n₁ i₁ = some r₁ →
        Requirement.parse s₂ n₂ i₂ = some r₂ →
        (∃ sp : Spec, (sp ∈ r₁.specs ∧ sp ∉ r₂.specs) ∨ (sp ∈ r₂.specs ∧ sp ∉ r₁.specs)) →
        r₁.eqReq r₂ = false) ∧
    (∀ a : Requirement, a.eqReq a = true) ∧
    (∀ a b : Requirement, a.eqReq b = b.eqReq a) ∧
    (∀ a b c : Requirement, a.eqReq b = true → b.eqReq c = true → a.eqReq c = true) := by
  refine ⟨?_, ?_, ?_, ?_, ?_, ?_⟩
  · intro a b
    simp [Requirement.eqReq, beq_iff_eq]
  · intro s n₁ i₁ n₂ i₂ r₁ r₂ h₁ h₂
    unfold Requirement.parse at h₁ h₂
    cases hp : parseReqLine
        (if strContains s (strLit "\t#") = true then
          pyReplace (strLit "\t#") (strLit "\t #") s else s) with
    | none => rw [hp] at h₁; exact absurd h₁ (by simp)
    | some nmspecs =>
      obtain ⟨nm, specs⟩ := nmspecs
      rw [hp] at h₁ h₂
      simp only at h₁ h₂
      injection h₁ with h₁
      injection h₂ with h₂
      subst h₁
      subst h₂
      simp [Requirement.eqReq]
  · intro s₁ n₁ i₁ s₂ n₂ i₂ r₁ r₂ h₁ h₂ hsp
    obtain ⟨sp, hsp⟩ := hsp
    cases heq : r₁.eqReq r₂ with
    | false => rfl
    | true =>
      exfalso
      have heq2 : r₁.hashCmp = r₂.hashCmp := by
        have := heq
        unfold Requirement.eqReq at this
        exact beq_iff_eq.mp this
      have e₁ := (Requirement.parse_some_elim h₁).2.2.2
      have e₂ := (Requirement.parse_some_elim h₂).2.2.2
      rw [e₁, e₂, Prod.mk.injEq] at heq2
      have hmem : ∀ x : Spec, x ∈ r₁.specs ↔ x ∈ r₂.specs := fun x => by
        rw [← mem_canonSpecs, heq2.2, mem_canonSpecs]
      rcases hsp with ⟨hin, hnot⟩ | ⟨hin, hnot⟩
      · exact hnot ((hmem sp).mp hin)
      · exact hnot ((hmem sp).mpr hin)
  · intro a
    simp [Requirement.eqReq]
  · intro a b
    rw [Bool.eq_iff_iff]
    simp only [Requirement.eqReq, beq_iff_eq]
    exact ⟨Eq.symm, Eq.symm⟩
  · intro a b c h₁ h₂
    simp only [Requirement.eqReq, beq_iff_eq] at h₁ h₂ ⊢
    exact h₁.trans h₂

def c8a : Requirement := (Requirement.parse (strLit "django==1.0") 1 none).getD junkReq

def c8b : Requirement :=
  (Requirement.parse (strLit "django==1.0") 7 (some (strLit "http://idx/"))).getD junkReq

def c8c : Requirement := (Requirement.parse (strLit "django==2.0") 1 none).getD junkReq

/-- Witness for C8: the same line text parsed at different line numbers and
index servers compares equal; a differing pinned spec makes the comparison
fail. -/
theorem C8_witness : c8a.eqReq c8b = true ∧ c8a.eqReq c8c = false := by
  constructor
  · exact C8_equality_by_hashCmp.2.1 (strLit "django==1.0") 1 none 7
      (some (strLit "http://idx/")) c8a c8b (by decide) (by decide)
  · exact C8_equality_by_hashCmp.2.2.1 (strLit "django==1.0") 1 none
      (strLit "django==2.0") 1 none c8a c8c (by decide) (by decide)
      ⟨(Op.eq, strLit "1.0"), Or.inl ⟨by decide, by decide⟩⟩

/-- A line containing the ignore-file marker at physical index 0 or 1 stops
the parse immediately, discarding nothing already accumulated (there is
nothing at the point the branch fires for that line). -/
theorem parseAux_marker_stop (cat : Catalog) (path l : Str) (ls : List Str)
    (num : Nat) (idx : Option Str)
    (hm : strContains (strip l) (strLit "pyup: ignore file") = true)
    (hnum : num = 0 ∨ num = 1) :
    parseAux cat path (l :: ls) num idx = ([], [], true) := by
  have hne : strip l ≠ [] := ne_nil_of_strContains (by decide) hm
  have hnum2 : (num == 0 || num == 1) = true := by
    rcases hnum with h | h <;> subst h <;> rfl
  simp [parseAux, List.isEmpty_eq_false.mpr hne, hm, hnum2]

/-- Claim C4, counterexample: for the content
`-r other.txt\n# pyup: ignore file` the marker sits on physical line index 1
and `is_valid` is false, yet `other_files` is not empty: the sibling file
recorded from line 0 before the marker fired survives the early return. -/
theorem C4_counterexample :
    strContains (strip (strLit "# pyup: ignore file")) (strLit "pyup: ignore file") = true ∧
    splitlines (strLit "-r other.txt\n# pyup: ignore file") =
      [strLit "-r other.txt", strLit "# pyup: ignore file"] ∧
    (runParse catAll (strLit "requirements.txt")
        (strLit "-r other.txt\n# pyup: ignore file")).is_valid = false ∧
    (runParse catAll (strLit "requirements.txt")
        (strLit "-r other.txt\n# pyup: ignore file")).other_files = [strLit "other.txt"] := by
  decide

/-- When the marker is on line 1 only, the parse stops there: the outcome
keeps exactly the entries produced by line 0 alone and is marked invalid. -/
theorem parseAux_stop_after_first (cat : Catalog) (path l0 l1 : Str) (ls : List Str)
    (h0 : strContains (strip l0) (strLit "pyup: ignore file") = false)
    (h1 : strContains (strip l1) (strLit "pyup: ignore file") = true) :
    (parseAux cat path (l0 :: l1 :: ls) 0 none).1 = (parseAux cat path [l0] 0 none).1 ∧
    (parseAux cat path (l0 :: l1 :: ls) 0 none).2.1 = (parseAux cat path [l0] 0 none).2.1 ∧
    (parseAux cat path (l0 :: l1 :: ls) 0 none).2.2 = true := by
  have hstop : ∀ idx, parseAux cat path (l1 :: ls) 1 idx = ([], [], true) :=
    fun idx => parseAux_marker_stop cat path l1 ls 1 idx h1 (Or.inr rfl)
  have hne1 : ¬(strip l1 = []) := ne_nil_of_strContains (by decide) h1
  by_cases c1 : (strip l0).isEmpty = true
  · simp [parseAux, c1, hne1, h1, hstop]
  · by_cases c3 : (strLit "#").isPrefixOf (strip l0) = true
    · simp [parseAux, c1, h0, c3, hne1, h1, hstop]
    · by_cases c4 : isIndexLine (strip l0) = true
      · simp [parseAux, c1, h0, c3, c4, hne1, h1, hstop]
      · by_cases c5 : isReqFileLine (strip l0) = true
        · simp [parseAux, c1, h0, c3, c4, c5, hne1, h1, hstop]
        · by_cases c6 : isNoopLine (strip l0) = true
          · simp [parseAux, c1, h0, c3, c4, c5, c6, hne1, h1, hstop]
          · by_cases c7 : strContains (strip l0) (strLit "pyup: ignore") = true
            · simp [parseAux, c1, h0, c3, c4, c5, c6, c7, hne1, h1, hstop]
            · cases hp : Requirement.parse (strip l0) 1 none with
              | none => simp [parseAux, c1, h0, c3, c4, c5, c6, c7, hp, hne1, h1, hstop]
              | some req =>
                by_cases c8 : (cat req.name none).isSome = true
                · simp [parseAux, c1, h0, c3, c4, c5, c6, c7, hp, c8, hne1, h1, hstop]
                · simp [parseAux, c1, h0, c3, c4, c5, c6, c7, hp, c8, hne1, h1, hstop]

/-- Claim C4 as amended: an ignore-file marker on physical line 0 yields an
invalid file with no requirements and no other files; a marker on physical
line 1 yields an invalid file whose requirements and other files are exactly
the ones contributed by line 0 alone (in particular a well-formed `-r` or
requirement line 0 is still recorded), and nothing from the marker line
onward. -/
theorem C4_amended_ignore_file (cat : Catalog) (path content : Str) :
    (∀ l0 ls, splitlines content = l0 :: ls →
      strContains (strip l0) (strLit "pyup: ignore file") = true →
      runParse cat path content = ⟨[], [], false⟩) ∧
    (∀ l0 l1 ls, splitlines content = l0 :: l1 :: ls →
      strContains (strip l0) (strLit "pyup: ignore file") = false →
      strContains (strip l1) (strLit "pyup: ignore file") = true →
      (runParse cat path content).is_valid = false ∧
      (runParse cat path content).requirements = (parseAux cat path [l0] 0 none).1 ∧
      (runParse cat path content).other_files = (parseAux cat path [l0] 0 none).2.1) := by
  constructor
  · intro l0 ls hsplit hm
    simp [runParse, hsplit, parseAux_marker_stop cat path l0 ls 0 none hm (Or.inl rfl)]
  · intro l0 l1 ls hsplit h0 h1
    have h := parseAux_stop_after_first cat path l0 l1 ls h0 h1
    refine ⟨?_, ?_, ?_⟩
    · simp [runParse, hsplit, h.2.2]
    · simp [runParse, hsplit, h.1]
    · simp [runParse, hsplit, h.2.1]

/-- Witness for C4 (amended): at the concrete two-line content the parse is
invalid and retains exactly line 0's sibling file. -/
theorem C4_witness :
    (runParse catAll (strLit "requirements.txt")
        (strLit "-r other.txt\n# pyup: ignore file")).is_valid = false ∧
    (runParse catAll (strLit "requirements.txt")
        (strLit "-r other.txt\n# pyup: ignore file")).requirements =
      (parseAux catAll (strLit "requirements.txt") [strLit "-r other.txt"] 0 none).1 ∧
    (runParse catAll (strLit "requirements.txt")
        (strLit "-r other.txt\n# pyup: ignore file")).other_files =
      (parseAux catAll (strLit "requirements.txt") [strLit "-r other.txt"] 0 none).2.1 :=
  (C4_amended_ignore_file catAll (strLit "requirements.txt")
      (strLit "-r other.txt\n# pyup: ignore file")).2
    (strLit "-r other.txt") (strLit "# pyup: ignore file") [] (by decide) (by decide) (by decide)

/-- The index-server in effect after one line: an index-directive line
installs its parsed URL (possibly `none` when malformed), any other line
leaves the current server untouched. -/
def idxStep (idx : Option Str) (l : Str) : Option Str :=
  if isIndexLine (strip l) then parse_index_server (strip l) else idx

/-- The index-server in effect after a list of lines, starting from `idx`. -/
def effIndexFrom (idx : Option Str) (ls : List Str) : Option Str :=
  ls.foldl idxStep idx

theorem isIndexLine_nil : isIndexLine [] = false := by decide

theorem isPrefixOf_cons_neq {a b : Char} (as bs : Str) (h : (a == b) = false) :
    (a :: as).isPrefixOf (b :: bs) = false := by
  simp only [List.isPrefixOf, h, Bool.false_and]

theorem isIndexLine_hash (t : Str) : isIndexLine ('#' :: t) = false := by
  unfold isIndexLine
  rw [show strLit "-i" = '-' :: strLit "i" from rfl,
      show strLit "--index-url" = '-' :: strLit "-index-url" from rfl,
      show strLit "--extra-index-url" = '-' :: strLit "-extra-index-url" from rfl]
  have hne : ('-' == '#') = false := by decide
  rw [isPrefixOf_cons_neq (strLit "i") t hne, isPrefixOf_cons_neq (strLit "-index-url") t hne,
      isPrefixOf_cons_neq (strLit "-extra-index-url") t hne]
  rfl

/-- Every requirement produced by the parse loop starting at index `num` with
current server `idx` comes from some physical line `num + k`, and carries the
index-server obtained by folding the directive lines strictly before it on
top of `idx`. -/
theorem parseAux_index (cat : Catalog) (path : Str) :
    ∀ (ls : List Str) (num : Nat) (idx : Option Str) (r : Requirement),
      r ∈ (parseAux cat path ls num idx).1 →
      ∃ k, k < ls.length ∧ r.lineno = num + k + 1 ∧
        r.index_server = effIndexFrom idx (ls.take k) := by
  intro ls
  induction ls with
  | nil => intro num idx r hr; simp [parseAux] at hr
  | cons l rest ih =>
    intro num idx r hr
    have hsucc : ∀ idx2, r ∈ (parseAux cat path rest (num + 1) idx2).1 →
        idxStep idx l = idx2 →
        ∃ k, k < (l :: rest).length ∧ r.lineno = num + k + 1 ∧
          r.index_server = effIndexFrom idx ((l :: rest).take k) := by
      intro idx2 hmem hstep
      obtain ⟨k, hk, hlineno, hidx⟩ := ih (num + 1) idx2 r hmem
      refine ⟨k + 1, by simpa using Nat.succ_lt_succ hk, by omega, ?_⟩
      rw [List.take_succ_cons]
      unfold effIndexFrom
      rw [List.foldl_cons, hstep]
      exact hidx
    by_cases c1 : (strip l).isEmpty = true
    · rw [show parseAux cat path (l :: rest) num idx = parseAux cat path rest (num + 1) idx by
        simp [parseAux, c1]] at hr
      exact hsucc idx hr (by simp [idxStep, List.isEmpty_iff.mp c1, isIndexLine_nil])
    · by_cases c2 : (strContains (strip l) (strLit "pyup: ignore file") &&
          (num == 0 || num == 1)) = true
      · rw [show parseAux cat path (l :: rest) num idx = ([], [], true) by
          simp [parseAux, c1, c2]] at hr
        simp at hr
      · by_cases c3 : (strLit "#").isPrefixOf (strip l) = true
        · rw [show parseAux cat path (l :: rest) num idx = parseAux cat path rest (num + 1) idx by
            simp [parseAux, c1, c2, c3]] at hr
          obtain ⟨t, ht⟩ : ∃ t, strip l = '#' :: t := by
            rcases List.isPrefixOf_iff_prefix.mp c3 with ⟨t, ht⟩
            exact ⟨t, ht.symm⟩
          exact hsucc idx hr (by simp [idxStep, ht, isIndexLine_hash])
        · by_cases c4 : isIndexLine (strip l) = true
          · rw [show parseAux cat path (l :: rest) num idx =
                parseAux cat path rest (num + 1) (parse_index_server (strip l)) by
              simp [parseAux, c1, c2, c3, c4]] at hr
            exact hsucc (parse_index_server (strip l)) hr (by simp [idxStep, c4])
          · by_cases c5 : isReqFileLine (strip l) = true
            · rw [show (parseAux cat path (l :: rest) num idx).1 =
                  (parseAux cat path rest (num + 1) idx).1 by
                simp [parseAux, c1, c2, c3, c4, c5]] at hr
              exact hsucc idx hr (by simp [idxStep, c4])
            · by_cases c6 : isNoopLine (strip l) = true
              · rw [show parseAux cat path (l :: rest) num idx =
                    parseAux cat path rest (num + 1) idx by
                  simp [parseAux, c1, c2, c3, c4, c5, c6]] at hr
                exact hsucc idx hr (by simp [idxStep, c4])
              · by_cases c7 : strContains (strip l) (strLit "pyup: ignore") = true
                · rw [show parseAux cat path (l :: rest) num idx =
                      parseAux cat path rest (num + 1) idx by
                    simp [parseAux, c1, c2, c3, c4, c5, c6, c7]] at hr
                  exact hsucc idx hr (by simp [idxStep, c4])
                · cases hp : Requirement.parse (strip l) (num + 1) idx with
                  | none =>
                    rw [show parseAux cat path (l :: rest) num idx =
                        parseAux cat path rest (num + 1) idx by
                      simp [parseAux, c1, c2, c3, c4, c5, c6, c7, hp]] at hr
                    exact hsucc idx hr (by simp [idxStep, c4])
                  | some req =>
                    by_cases c8 : (cat req.name idx).isSome = true
                    · rw [show (parseAux cat path (l :: rest) num idx).1 =
                          req :: (parseAux cat path rest (num + 1) idx).1 by
                        simp [parseAux, c1, c2, c3, c4, c5, c6, c7, hp, c8]] at hr
                      rcases List.mem_cons.mp hr with hreq | hmem
                      · subst hreq
                        obtain ⟨-, hlineno, hidx, -⟩ := Requirement.parse_some_elim hp
                        exact ⟨0, by simp, by omega, by simpa [effIndexFrom] using hidx⟩
                      · exact hsucc idx hmem (by simp [idxStep, c4])
                    · rw [show parseAux cat path (l :: rest) num idx =
                          parseAux cat path rest (num + 1) idx by
                        simp [parseAux, c1, c2, c3, c4, c5, c6, c7, hp, c8]] at hr
                      exact hsucc idx hr (by simp [idxStep, c4])

/-- Claim C7: every requirement a file parse produces carries as its
`index_server` the result of folding the index directives of the physical
lines strictly before its own line, starting from no server at the top of the
file — so a directive affects exactly the requirements parsed later in the
same file up to the next directive, earlier requirements are unaffected, and
(the parse being a pure function of the content) no other file is affected. -/
theorem C7_index_server_scoping (cat : Catalog) (path content : Str) (r : Requirement)
    (hr : r ∈ (runParse cat path content).requirements) :
    ∃ k, r.lineno = k + 1 ∧
      r.index_server = effIndexFrom none ((splitlines content).take k) := by
  have hr2 : r ∈ (parseAux cat path (splitlines content) 0 none).1 := hr
  obtain ⟨k, -, hlineno, hidx⟩ := parseAux_index cat path (splitlines content) 0 none r hr2
  exact ⟨k, by omega, hidx⟩

def c7content : Str :=
  strLit "django==1.0\n--index-url http://pypi.example.org\nflask==2.0"

def c7req : Requirement :=
  ⟨strLit "flask", [(Op.eq, strLit "2.0")], (strLit "flask", [(Op.eq, strLit "2.0")]),
   strLit "flask==2.0", 3, some (strLit "http://pypi.example.org/")⟩

/-- Witness for C7: the requirement parsed after the directive carries the
directive's slash-normalised URL, as computed by the directive fold over the
two preceding lines. -/
theorem C7_witness :
    ∃ k, c7req.lineno = k + 1 ∧
      c7req.index_server = effIndexFrom none ((splitlines c7content).take k) :=
  C7_index_server_scoping catAll (strLit "requirements.txt") c7content c7req (by decide)

